import Mathlib

/-!
Verification of the stm32pio GUI project wrapper (`stm32pio/gui/project.py`,
class `ProjectListItem`) against its natural-language specification.

The Python class is shallowly embedded:

* `Handle` mirrors the mutable fields of a `ProjectListItem` instance
  (`_current_action`, `_last_action_succeed`, `project`, `_name`, `_state`,
  `_current_stage`) together with the queued-but-not-started runnables of its
  `workers_pool`.
* Each method body that mutates the instance or emits Qt signals is
  transliterated into a `List Prim` of primitive effects, in the exact
  statement order of the Python source; `runPrims` interprets such a list,
  recording, for every emitted signal, a snapshot of the handle state at the
  moment of emission (this is what a synchronously connected Qt observer
  would see).
* The serialized action queue (`QThreadPool` with `maxThreadCount = 1`
  driving `Worker` runnables) is modelled as an explicit state machine
  `Queue` with a step relation `qstep`.

Definitions carry doc comments pointing at the Python source they embed;
definitions for repository code that is not part of the two provided source
files are modelled from the specification and say so explicitly.
-/

/-- Qt signals of `ProjectListItem` that the embedded method bodies emit:
`initialized`, `nameChanged`, `stageChanged`, `stateChanged`,
`actionStarted(action)`, `actionFinished(action, success)` (source lines
20-21, 146, 155, 176, 198, 208). -/
inductive Event
  | initialized
  | nameChanged
  | stageChanged
  | stateChanged
  | actionStarted (action : String)
  | actionFinished (action : String) (success : Bool)
  deriving DecidableEq, Repr

/-- Modelled from the spec: the fixed ordered list of lifecycle stages, "one of
a fixed ordered list of named lifecycle milestones (e.g., Empty, Initialized,
Generated, ToolchainReady, Patched, Built) plus the excluded-from-public-view
sentinel Undefined" (spec section 3).  The defining module
(`stm32pio/core/state.py`) is not among the provided source files. -/
inductive ProjectStage
  | UNDEFINED
  | EMPTY
  | INITIALIZED
  | GENERATED
  | TOOLCHAIN_READY
  | PATCHED
  | BUILT
  deriving DecidableEq, Repr

namespace ProjectStage

/-- Display name of a stage, as used for the keys of the public state map. -/
def name : ProjectStage → String
  | UNDEFINED => "Undefined"
  | EMPTY => "Empty"
  | INITIALIZED => "Initialized"
  | GENERATED => "Generated"
  | TOOLCHAIN_READY => "ToolchainReady"
  | PATCHED => "Patched"
  | BUILT => "Built"

/-- All stages, in rank order, the `Undefined` sentinel first (lowest). -/
def all : List ProjectStage :=
  [UNDEFINED, EMPTY, INITIALIZED, GENERATED, TOOLCHAIN_READY, PATCHED, BUILT]

/-- The real (non-sentinel) stages in rank order, lowest first. -/
def real : List ProjectStage :=
  [EMPTY, INITIALIZED, GENERATED, TOOLCHAIN_READY, PATCHED, BUILT]

end ProjectStage

/-- Modelled from the spec: the underlying `Stm32pio` project object
(`stm32pio/core/project.py`, not among the provided source files), reduced to
the two capabilities `ProjectListItem` uses: its canonical path name
(`self.project.path.name`) and its computed `StageSet` (`self.project.state`),
"a mapping from each real Stage to a boolean reached flag" (spec section 3). -/
structure Project where
  pathName : String
  state : ProjectStage → Bool

/-- The mutable state of one `ProjectListItem` instance (source lines 58-65)
plus the queued-but-not-started runnables of its `workers_pool`. -/
structure Handle where
  currentAction : String
  lastActionSucceed : Bool
  project : Option Project
  nameCache : String
  pseudoState : List (String × Bool)
  currentStageCache : String
  poolPending : List String

/-- The handle as built by `ProjectListItem.__init__` (source lines 58-65):
empty current action, `_last_action_succeed = True`, no project yet, the
`Loading...` placeholder name and stage, and the `LOADING` pseudo-stage map. -/
def initialHandle : Handle :=
  { currentAction := ""
    lastActionSucceed := true
    project := none
    nameCache := "Loading..."
    pseudoState := [("LOADING", true)]
    currentStageCache := "Loading..."
    poolPending := [] }

/-- Primitive effects a `ProjectListItem` method body performs, in source
order: field assignments, `workers_pool.clear()`, registering the finalizer,
waiting on `qml_ready`, logging the caught construction exception, and
emitting a Qt signal. -/
inductive Prim
  | setCurrentAction (a : String)
  | setLastActionSucceed (b : Bool)
  | clearPool
  | setProject (p : Option Project)
  | setNameCache (n : String)
  | setPseudoState (s : List (String × Bool))
  | setCurrentStageCache (s : String)
  | registerFinalizer
  | waitQmlReady
  | logException
  | emit (e : Event)

/-- Effect of one primitive on the handle state.  `clearPool` is
`QThreadPool.clear()`: it discards the queued-but-not-started runnables (the
in-flight one, if any, is unaffected and is not represented in the handle). -/
def applyPrim (h : Handle) : Prim → Handle
  | .setCurrentAction a => { h with currentAction := a }
  | .setLastActionSucceed b => { h with lastActionSucceed := b }
  | .clearPool => { h with poolPending := [] }
  | .setProject p => { h with project := p }
  | .setNameCache n => { h with nameCache := n }
  | .setPseudoState s => { h with pseudoState := s }
  | .setCurrentStageCache s => { h with currentStageCache := s }
  | .registerFinalizer => h
  | .waitQmlReady => h
  | .logException => h
  | .emit _ => h

/-- Interpret a method body: the final handle state, and for every emitted
signal the handle state at the moment of emission (what a synchronously
connected observer querying the properties would see). -/
def runPrims (h : Handle) : List Prim → Handle × List (Event × Handle)
  | [] => (h, [])
  | p :: ps =>
      let h' := applyPrim h p
      let rest := runPrims h' ps
      match p with
      | .emit e => (rest.1, (e, h') :: rest.2)
      | _ => rest

namespace ProjectListItem

/-- `ProjectListItem.actionStartedSlot` (source lines 199-206): set
`_current_action` to the action name, then emit `actionStarted`. -/
def actionStartedSlot (action : String) : List Prim :=
  [.setCurrentAction action, .emit (.actionStarted action)]

/-- `ProjectListItem.actionFinishedSlot` (source lines 209-220): set
`_last_action_succeed`; if the action failed, clear the pool queue; emit
`actionFinished`; finally reset `_current_action` to the empty string. -/
def actionFinishedSlot (action : String) (success : Bool) : List Prim :=
  [.setLastActionSucceed success]
    ++ (if success then [] else [.clearPool])
    ++ [.emit (.actionFinished action success), .setCurrentAction ""]

end ProjectListItem

/-- A Python exception escaping to the caller.  `attributeError a` stands for
the `AttributeError` raised by `getattr(None, a)`. -/
inductive PyExn
  | attributeError (attr : String)
  | constructionFailed (msg : String)
  deriving DecidableEq, Repr

/-- `ProjectListItem.init_project` (source lines 83-114), as the list of
effects it performs.  The attempted construction
`stm32pio.core.project.Stm32pio(*args, **kwargs)` is an external call; its
outcome is the parameter `ctorResult`.  The `try` block assigns the project
on success; the all-catching `except Exception` branch logs the exception and
installs the fallback name (`args[0]` if any positional argument was given,
else the string `Undefined`), the `INIT_ERROR` pseudo-stage map and the
`Initializing error` stage caption; the `finally` block registers the
finalizer, waits on `qml_ready` and emits `initialized`, `nameChanged`,
`stageChanged`, `stateChanged` in that order.  The result is `Except` valued:
an uncaught exception would surface as `.error`, and the catch-all `except`
means that never happens. -/
def init_project_prims (ctorResult : Except PyExn Project) (args : List String) :
    List Prim :=
  (match ctorResult with
    | .ok p =>
        [.setProject (some p), .setNameCache "Project", .setPseudoState [],
         .setCurrentStageCache "Initialized"]
    | .error _ =>
        [.logException,
         .setNameCache (match args with | a :: _ => a | [] => "Undefined"),
         .setPseudoState [("INIT_ERROR", true)],
         .setCurrentStageCache "Initializing error"])
    ++ [.registerFinalizer, .waitQmlReady, .emit .initialized,
        .emit .nameChanged, .emit .stageChanged, .emit .stateChanged]

/-- Outcome of `ProjectListItem.init_project` as seen by its caller (the
thread runner): thanks to the catch-all `except Exception`, the method always
returns normally (`.ok`), whatever the construction outcome was; the effects
it performed are the `init_project_prims` list. -/
def init_project (ctorResult : Except PyExn Project) (args : List String) :
    Except PyExn (List Prim) :=
  .ok (init_project_prims ctorResult args)

/-- The steps of the static teardown handler `ProjectListItem.at_exit`
(source lines 117-128): `workers_pool.waitForDone(msecs)`,
`logging_worker.stopped.set()`, `logging_worker.thread.wait()`, and a module
logger `info` record. -/
inductive TeardownStep
  | waitForDone (msecs : Int)
  | relayStopSignal
  | relayThreadWait
  | logInfo (msg : String)
  deriving DecidableEq, Repr

/-- `ProjectListItem.at_exit` (source lines 117-128): wait forever
(`msecs = -1`) for all pool jobs to complete, post the stop event to the
logging worker, wait for the logging thread to exit, then log
`destroyed <name>`. -/
def at_exit (name : String) : List TeardownStep :=
  [.waitForDone (-1), .relayStopSignal, .relayThreadWait,
   .logInfo ("destroyed " ++ name)]

/-- How the teardown handler can be invoked: by an explicit disposal call
from the owner, or by a finalizer that the garbage collector (or interpreter
shutdown) triggers. -/
inductive TeardownTrigger
  | explicitDispose
  | gcFinalizer
  deriving DecidableEq, Repr

/-- Translated from the source (line 108): teardown is registered with
`weakref.finalize(self, self.at_exit, ...)`, i.e. it runs when the handle is
garbage-collected or at interpreter exit — a GC finalizer, not an explicit
disposal call. -/
def finalizerTrigger : TeardownTrigger := .gcFinalizer

/-- Modelled from the spec: teardown is "triggered by explicit disposal by
the owner", "not dependent on automatic memory reclamation" (spec section
4.5). -/
def spec_teardownTrigger : TeardownTrigger := .explicitDispose

namespace ProjectListItem

/-- Modelled from the spec: the current stage of a computed `StageSet`,
"computed by scanning stages from highest to lowest rank and returning the
first with reached = true; if none, returns the lowest-rank stage name (not
Undefined)" (spec section 4.1; the defining module `stm32pio/core/state.py`
is not among the provided source files). -/
def currentStageName (st : ProjectStage → Bool) : String :=
  ((ProjectStage.real.reverse.find? (fun s => st s)).getD ProjectStage.EMPTY).name

/-- `ProjectListItem.name` (source lines 147-153): the underlying project's
path name when the project exists, otherwise the cached `_name`. -/
def name (h : Handle) : String :=
  match h.project with
  | some p => p.pathName
  | none => h.nameCache

/-- `ProjectListItem.state` (source lines 156-174).  When the project exists:
read `self.project.state` (the full stage dictionary, `Undefined` sentinel
included), cache `str(state.current_stage)` into `_current_stage` as a side
effect, `pop` the `UNDEFINED` key, and return the name-keyed boolean map.
When the project does not exist: return the cached pseudo-stage map `_state`
unchanged, touching nothing.  The `Except` result records whether the query
raises to the caller (it never does). -/
def state (h : Handle) : Except PyExn (Handle × List (String × Bool)) :=
  match h.project with
  | some p =>
      .ok ({ h with currentStageCache := currentStageName p.state },
           (ProjectStage.all.filter (fun s => s ≠ ProjectStage.UNDEFINED)).map
             (fun s => (s.name, p.state s)))
  | none => .ok (h, h.pseudoState)

/-- `ProjectListItem.currentStage` (source lines 177-183): return the cached
`_current_stage` value; the getter reads the handle and changes nothing. -/
def currentStage (h : Handle) : Handle × String :=
  (h, h.currentStageCache)

/-- `ProjectListItem.currentAction` (source lines 185-191): return the cached
`_current_action` value. -/
def currentAction (h : Handle) : String :=
  h.currentAction

/-- `ProjectListItem.lastActionSucceed` (source lines 193-196): return the
cached `_last_action_succeed` flag. -/
def lastActionSucceed (h : Handle) : Bool :=
  h.lastActionSucceed

/-- `ProjectListItem.run` (source lines 229-245): build a `Worker` around
`getattr(self.project, action)` and hand it to the single-threaded pool.
When `self.project` is `None` (the handle is still loading, or its
construction failed), the `getattr` call raises `AttributeError`
synchronously in the caller.  Otherwise the worker is appended to the pool's
queue and the call returns at once. -/
def run (h : Handle) (action : String) (_args : List String) :
    Except PyExn Handle :=
  match h.project with
  | none => .error (.attributeError action)
  | some _ => .ok { h with poolPending := h.poolPending ++ [action] }

end ProjectListItem

/-- Modelled from the spec: the per-project serialized action queue (spec
section 4.2).  In the source the queue is the `QThreadPool` configured with
`setMaxThreadCount(1)` and infinite expiry (source lines 53-56) executing
`Worker` runnables (`stm32pio/gui/util.py`, not among the provided source
files); the spec describes it as a FIFO pending list plus at most one
in-flight action, "single concurrent worker per queue, enforced
structurally". -/
structure Queue where
  pending : List String
  inFlight : Option String
  deriving DecidableEq, Repr

/-- Observable transitions of the action queue: a submission (`run` appending
a worker), the worker picking up the head pending action (emitting
`actionStarted`), and the in-flight action finishing with a success flag
(emitting `actionFinished`; on failure the pending list is flushed, per
`actionFinishedSlot` calling `workers_pool.clear()`). -/
inductive QStep
  | submit (a : String)
  | start
  | finish (success : Bool)
  deriving DecidableEq, Repr

/-- Modelled from the spec: one step of the queue (spec section 4.2).
`submit` "appends to the tail of an unbounded pending list"; `start` fires
only when no action is in flight and pops the head of the pending list,
emitting the started event before invocation; `finish` ends the in-flight
action, emits the finished event, and — only on failure — "atomically clears
all remaining pending actions without invoking them". -/
def qstep (q : Queue) : QStep → Option (Queue × List Event)
  | .submit a => some ({ q with pending := q.pending ++ [a] }, [])
  | .start =>
      match q.inFlight, q.pending with
      | none, a :: rest =>
          some ({ pending := rest, inFlight := some a }, [.actionStarted a])
      | _, _ => none
  | .finish success =>
      match q.inFlight with
      | some a =>
          some ({ pending := if success then q.pending else [], inFlight := none },
                [.actionFinished a success])
      | none => none

/-- Run a sequence of queue steps, accumulating the emitted event trace;
`none` when some step is not enabled. -/
def qrun (q : Queue) : List QStep → Option (Queue × List Event)
  | [] => some (q, [])
  | s :: ss =>
      match qstep q s with
      | none => none
      | some (q', es) =>
          match qrun q' ss with
          | none => none
          | some (q'', tr) => some (q'', es ++ tr)

/-- The action names submitted by a step sequence, in submission order. -/
def submits : List QStep → List String :=
  List.filterMap (fun s => match s with | QStep.submit a => some a | _ => none)

/-- The action names carried by the `actionFinished` events of a trace, in
emission order. -/
def finishedNames : List Event → List String :=
  List.filterMap (fun e => match e with | Event.actionFinished a _ => some a | _ => none)

/-- Alternation checker for a queue event trace.  Starting from the given
in-flight action (if any), it accepts exactly the traces in which an
`actionStarted` occurs only while nothing is in flight and an
`actionFinished` only for the action currently in flight, and returns the
in-flight action remaining at the end.  Success of this checker is precisely
the "at most one action in flight, no interleaving of a second in-flight
action" shape of a trace. -/
def altRun : Option String → List Event → Option (Option String)
  | cur, [] => some cur
  | cur, e :: es =>
      match cur, e with
      | none, .actionStarted a => altRun (some a) es
      | some a, .actionFinished b _ => if a = b then altRun none es else none
      | _, _ => none

/-- The action names a queue still holds: the in-flight one (if any) followed
by the pending list. -/
def histLine (q : Queue) : List String :=
  q.inFlight.toList ++ q.pending

/-- The trivial sanity check of the interpreter on the started slot. -/
theorem runPrims_startedSlot (h : Handle) (a : String) :
    runPrims h (ProjectListItem.actionStartedSlot a) =
      ({ h with currentAction := a },
       [(Event.actionStarted a, { h with currentAction := a })]) := rfl

/-- Every successful queue run preserves the alternation discipline: the
emitted trace is accepted by `altRun` started at the initial in-flight
action, and the checker ends at the final in-flight action. -/
theorem qrun_altRun :
    ∀ (steps : List QStep) (q q' : Queue) (tr : List Event),
      qrun q steps = some (q', tr) → altRun q.inFlight tr = some q'.inFlight := by
  intro steps
  induction steps with
  | nil =>
      intro q q' tr h
      simp only [qrun, Option.some.injEq, Prod.mk.injEq] at h
      obtain ⟨rfl, rfl⟩ := h
      rfl
  | cons s ss ih =>
      intro q q' tr h
      obtain ⟨pend, infl⟩ := q
      cases s with
      | submit a =>
          simp only [qrun, qstep] at h
          cases hrec : qrun { pending := pend ++ [a], inFlight := infl } ss with
          | none => rw [hrec] at h; exact absurd h (by simp)
          | some res =>
              obtain ⟨q'', tr₁⟩ := res
              rw [hrec] at h
              simp only [Option.some.injEq, Prod.mk.injEq, List.nil_append] at h
              obtain ⟨rfl, rfl⟩ := h
              have h2 := ih _ _ _ hrec
              simpa using h2
      | start =>
          cases infl with
          | some a => simp [qrun, qstep] at h
          | none =>
              cases pend with
              | nil => simp [qrun, qstep] at h
              | cons a rest =>
                  simp only [qrun, qstep] at h
                  cases hrec : qrun { pending := rest, inFlight := some a } ss with
                  | none => rw [hrec] at h; exact absurd h (by simp)
                  | some res =>
                      obtain ⟨q'', tr₁⟩ := res
                      rw [hrec] at h
                      simp only [Option.some.injEq, Prod.mk.injEq,
                        List.singleton_append] at h
                      obtain ⟨rfl, rfl⟩ := h
                      simpa [altRun] using ih _ _ _ hrec
      | finish success =>
          cases infl with
          | none => simp [qrun, qstep] at h
          | some a =>
              simp only [qrun, qstep] at h
              cases hrec :
                  qrun { pending := if success = true then pend else [],
                         inFlight := none } ss with
              | none => rw [hrec] at h; exact absurd h (by simp)
              | some res =>
                  obtain ⟨q'', tr₁⟩ := res
                  rw [hrec] at h
                  simp only [Option.some.injEq, Prod.mk.injEq,
                    List.singleton_append] at h
                  obtain ⟨rfl, rfl⟩ := h
                  simpa [altRun] using ih _ _ _ hrec

/-- Every successful queue run respects submission order: the names already
finished, followed by what the queue still holds (in-flight then pending),
form a sublist of what the queue held initially followed by the submissions
in submission order.  Dropping pending actions on failure only removes
elements, so the sublist relation is preserved. -/
theorem qrun_fifo :
    ∀ (steps : List QStep) (q q' : Queue) (tr : List Event),
      qrun q steps = some (q', tr) →
      (finishedNames tr ++ histLine q').Sublist (histLine q ++ submits steps) := by
  intro steps
  induction steps with
  | nil =>
      intro q q' tr h
      simp only [qrun, Option.some.injEq, Prod.mk.injEq] at h
      obtain ⟨rfl, rfl⟩ := h
      simp [finishedNames, submits]
  | cons s ss ih =>
      intro q q' tr h
      obtain ⟨pend, infl⟩ := q
      cases s with
      | submit a =>
          simp only [qrun, qstep] at h
          cases hrec : qrun { pending := pend ++ [a], inFlight := infl } ss with
          | none => rw [hrec] at h; exact absurd h (by simp)
          | some res =>
              obtain ⟨q'', tr₁⟩ := res
              rw [hrec] at h
              simp only [Option.some.injEq, Prod.mk.injEq, List.nil_append] at h
              obtain ⟨rfl, rfl⟩ := h
              have h2 := ih _ _ _ hrec
              simp only [histLine, submits, List.filterMap_cons] at h2 ⊢
              simpa [List.append_assoc] using h2
      | start =>
          cases infl with
          | some a => simp [qrun, qstep] at h
          | none =>
              cases pend with
              | nil => simp [qrun, qstep] at h
              | cons a rest =>
                  simp only [qrun, qstep] at h
                  cases hrec : qrun { pending := rest, inFlight := some a } ss with
                  | none => rw [hrec] at h; exact absurd h (by simp)
                  | some res =>
                      obtain ⟨q'', tr₁⟩ := res
                      rw [hrec] at h
                      simp only [Option.some.injEq, Prod.mk.injEq,
                        List.singleton_append] at h
                      obtain ⟨rfl, rfl⟩ := h
                      have h2 := ih _ _ _ hrec
                      simp only [histLine, submits, finishedNames,
                        List.filterMap_cons] at h2 ⊢
                      simpa using h2
      | finish success =>
          cases infl with
          | none => simp [qrun, qstep] at h
          | some a =>
              simp only [qrun, qstep] at h
              cases hrec : qrun { pending := if success = true then pend else [],
                                  inFlight := none } ss with
              | none => rw [hrec] at h; exact absurd h (by simp)
              | some res =>
                  obtain ⟨q'', tr₁⟩ := res
                  rw [hrec] at h
                  simp only [Option.some.injEq, Prod.mk.injEq,
                    List.singleton_append] at h
                  obtain ⟨rfl, rfl⟩ := h
                  have h2 := ih _ _ _ hrec
                  cases success with
                  | true =>
                      simp only [if_true, histLine, submits, finishedNames,
                        List.filterMap_cons, Option.toList, List.nil_append,
                        List.cons_append, List.singleton_append] at h2 ⊢
                      exact List.Sublist.cons₂ a h2
                  | false =>
                      simp only [Bool.false_eq_true, if_false, histLine, submits,
                        finishedNames, List.filterMap_cons, Option.toList,
                        List.nil_append, List.cons_append,
                        List.singleton_append] at h2 ⊢
                      exact List.Sublist.cons₂ a
                        (h2.trans (List.sublist_append_right pend (submits ss)))

/-- C1: for every sequence of steps a single handle's action queue performs
from idle, at most one action is ever in flight — the emitted trace is
accepted by the alternation checker `altRun`, so an `actionStarted` occurs
only when nothing is in flight and each `actionFinished` matches the one
in-flight action, with no interleaving of a second one — and the finish
events carry the action names in submission order (a sublist of the
submitted names). -/
theorem C1_single_flight_fifo (steps : List QStep) (q' : Queue) (tr : List Event)
    (h : qrun { pending := [], inFlight := none } steps = some (q', tr)) :
    altRun none tr = some q'.inFlight ∧
      (finishedNames tr).Sublist (submits steps) := by
  constructor
  · exact qrun_altRun steps _ _ _ h
  · have h2 := qrun_fifo steps _ _ _ h
    simp only [histLine, Option.toList, List.nil_append, List.append_nil] at h2
    exact (List.sublist_append_left _ _).trans h2

/-- Witness for C1: the concrete scenario of spec section 8 — submit `build`
then `clean`, both succeed; the trace alternates and the finish order is the
submission order. -/
theorem C1_single_flight_fifo_witness :
    altRun none [Event.actionStarted "build", Event.actionFinished "build" true,
      Event.actionStarted "clean", Event.actionFinished "clean" true] = some none ∧
    (finishedNames [Event.actionStarted "build", Event.actionFinished "build" true,
      Event.actionStarted "clean", Event.actionFinished "clean" true]).Sublist
      (submits [QStep.submit "build", QStep.submit "clean", QStep.start,
        QStep.finish true, QStep.start, QStep.finish true]) :=
  C1_single_flight_fifo
    [QStep.submit "build", QStep.submit "clean", QStep.start,
      QStep.finish true, QStep.start, QStep.finish true]
    { pending := [], inFlight := none }
    [Event.actionStarted "build", Event.actionFinished "build" true,
      Event.actionStarted "clean", Event.actionFinished "clean" true]
    (by rfl)

/-- C2: `actionFinishedSlot` flushes the pending pool queue exactly on
failure, and it does so before emitting `actionFinished`: on a failed finish
the only emitted event is `actionFinished(a, false)` (so no dropped action is
started) and the snapshot observers see at that event already has an empty
pending queue, which also persists afterwards; on a successful finish the
pending queue is unchanged both at the event and afterwards. -/
theorem C2_failure_flushes_queue (h : Handle) (a : String) :
    (∃ hFin hF,
        runPrims h (ProjectListItem.actionFinishedSlot a false) =
          (hF, [(Event.actionFinished a false, hFin)]) ∧
        hFin.poolPending = [] ∧ hF.poolPending = []) ∧
    (∃ hFin hF,
        runPrims h (ProjectListItem.actionFinishedSlot a true) =
          (hF, [(Event.actionFinished a true, hFin)]) ∧
        hFin.poolPending = h.poolPending ∧ hF.poolPending = h.poolPending) :=
  ⟨⟨_, _, rfl, rfl, rfl⟩, ⟨_, _, rfl, rfl, rfl⟩⟩

/-- C3: running an action's started slot followed by its finished slot emits
exactly the two events in order; at the `actionStarted` event the observer
sees `currentAction = a` (it was assigned before the emission), at the
`actionFinished` event the observer still sees `currentAction = a` and the
already-updated `lastActionSucceed`, and only after that event is
`currentAction` reset to the empty string. -/
theorem C3_current_action_ordering (h : Handle) (a : String) (s : Bool) :
    ∃ hStart hFin hFinal,
      runPrims h (ProjectListItem.actionStartedSlot a ++
          ProjectListItem.actionFinishedSlot a s) =
        (hFinal,
         [(Event.actionStarted a, hStart), (Event.actionFinished a s, hFin)]) ∧
      hStart.currentAction = a ∧
      hFin.currentAction = a ∧
      hFin.lastActionSucceed = s ∧
      hFinal.currentAction = "" ∧
      hFinal.lastActionSucceed = s := by
  cases s <;> exact ⟨_, _, _, rfl, rfl, rfl, rfl, rfl, rfl⟩

/-- C4: whatever the construction outcome, `init_project` returns normally
and its effect list contains exactly one emission of `initialized`; that
emission comes only after the wait on the consumer's one-shot `qml_ready`
readiness event (which occurs nowhere earlier), and is immediately followed,
in order, by the emissions of `nameChanged`, `stageChanged` and
`stateChanged`. -/
theorem C4_init_event_protocol (ctorResult : Except PyExn Project)
    (args : List String) :
    init_project ctorResult args = .ok (init_project_prims ctorResult args) ∧
    ∃ pre,
      init_project_prims ctorResult args =
        pre ++ [Prim.waitQmlReady, Prim.emit Event.initialized,
          Prim.emit Event.nameChanged, Prim.emit Event.stageChanged,
          Prim.emit Event.stateChanged] ∧
      Prim.emit Event.initialized ∉ pre ∧
      Prim.waitQmlReady ∉ pre ∧
      (init_project_prims ctorResult args).countP
        (fun p => match p with
          | Prim.emit Event.initialized => true
          | _ => false) = 1 := by
  refine ⟨rfl, ?_⟩
  cases ctorResult with
  | ok p =>
      exact ⟨[Prim.setProject (some p), Prim.setNameCache "Project",
        Prim.setPseudoState [], Prim.setCurrentStageCache "Initialized",
        Prim.registerFinalizer], rfl, by simp, by simp, rfl⟩
  | error e =>
      exact ⟨[Prim.logException,
        Prim.setNameCache (match args with | a :: _ => a | [] => "Undefined"),
        Prim.setPseudoState [("INIT_ERROR", true)],
        Prim.setCurrentStageCache "Initializing error",
        Prim.registerFinalizer], rfl, by simp, by simp, rfl⟩

/-- C5: when construction of the underlying project fails, the exception is
swallowed (the initializer still returns `.ok`, never re-throwing to the
creator); afterwards the handle has no project, carries the `INIT_ERROR`
pseudo-state and the `Initializing error` stage caption, and `name` returns
the first positional construction argument if one was given, else the fixed
placeholder `Undefined`; moreover neither action slot ever touches the
project, the pseudo-state or the cached name, so the `InitError` condition
persists indefinitely. -/
theorem C5_ctor_failure_terminal (e : PyExn) (args : List String)
    (a : String) (s : Bool) :
    ∃ hF,
      init_project (.error e) args = .ok (init_project_prims (.error e) args) ∧
      (runPrims initialHandle (init_project_prims (.error e) args)).1 = hF ∧
      hF.project = none ∧
      hF.pseudoState = [("INIT_ERROR", true)] ∧
      hF.currentStageCache = "Initializing error" ∧
      ProjectListItem.name hF =
        (match args with | x :: _ => x | [] => "Undefined") ∧
      (runPrims hF (ProjectListItem.actionStartedSlot a)).1.project = none ∧
      (runPrims hF (ProjectListItem.actionStartedSlot a)).1.pseudoState =
        [("INIT_ERROR", true)] ∧
      (runPrims hF (ProjectListItem.actionStartedSlot a)).1.nameCache =
        hF.nameCache ∧
      (runPrims hF (ProjectListItem.actionFinishedSlot a s)).1.project = none ∧
      (runPrims hF (ProjectListItem.actionFinishedSlot a s)).1.pseudoState =
        [("INIT_ERROR", true)] ∧
      (runPrims hF (ProjectListItem.actionFinishedSlot a s)).1.nameCache =
        hF.nameCache := by
  cases s <;>
    exact ⟨_, rfl, rfl, rfl, rfl, rfl, rfl, rfl, rfl, rfl, rfl, rfl, rfl⟩

/-- C6 counterexample: the claim says teardown is triggered "deterministically
by explicit disposal by the owner (not dependent on automatic memory
reclamation)", but the source registers `at_exit` with `weakref.finalize`
(line 108), so the trigger is a garbage-collection finalizer, not an explicit
disposal call: the trigger translated from the source differs from the
trigger the specification prescribes. -/
theorem C6_counterexample : finalizerTrigger ≠ spec_teardownTrigger := by
  decide

/-- C6 as amended: teardown is registered as a finalizer that runs when the
handle is garbage-collected or at interpreter exit — not by explicit owner
disposal — and, when invoked, performs in order: (1) an unbounded wait
(`msecs = -1`) until the pool has no pending and no in-flight job, (2) the
stop signal to the log relay, (3) the wait for the log relay thread to exit,
and (4) a final disposal log record naming the project. -/
theorem C6_teardown_sequence (n : String) :
    finalizerTrigger = TeardownTrigger.gcFinalizer ∧
    at_exit n = [TeardownStep.waitForDone (-1), TeardownStep.relayStopSignal,
      TeardownStep.relayThreadWait,
      TeardownStep.logInfo ("destroyed " ++ n)] :=
  ⟨rfl, rfl⟩

/-- C7 counterexample: querying the state of a handle still in the `Loading`
pseudo-state does not fail loudly — `ProjectListItem.state` on the freshly
constructed handle returns the pseudo-state mapping normally, and no
exception surfaces to the caller. -/
theorem C7_counterexample :
    ProjectListItem.state initialHandle =
      .ok (initialHandle, [("LOADING", true)]) ∧
    ¬ ∃ e, ProjectListItem.state initialHandle = Except.error e := by
  refine ⟨rfl, ?_⟩
  rintro ⟨e, he⟩
  simp [ProjectListItem.state, initialHandle] at he

/-- C7 as amended: submitting an action while the handle is in `Loading` or
`InitError` (no underlying project) does surface synchronously and loudly —
`run` raises the `AttributeError` from `getattr(None, action)` to the caller
— but querying the state in those pseudo-states is silently absorbed: it
returns the pseudo-state mapping without any error (and the source contains
no guard at all against submission after disposal). -/
theorem C7_usage_error_surfacing (h : Handle) (a : String) (args : List String) :
    ProjectListItem.run { h with project := none } a args =
      .error (.attributeError a) ∧
    ProjectListItem.state { h with project := none } =
      .ok ({ h with project := none }, h.pseudoState) :=
  ⟨rfl, rfl⟩

/-- C8: for every Ready handle (one holding an underlying project), the public
state query returns the name-keyed boolean stage mapping and the `Undefined`
sentinel stage is never among its keys — the source pops the `UNDEFINED` key
before converting the dictionary. -/
theorem C8_state_excludes_undefined (h : Handle) (p : Project) :
    ∃ h' m,
      ProjectListItem.state { h with project := some p } =
        Except.ok (h', m) ∧
      "Undefined" ∉ m.map Prod.fst := by
  refine ⟨_, _, rfl, ?_⟩
  simp [ProjectStage.all, ProjectStage.name]

/-- C9: the `currentStage` getter returns the cached value and leaves the
handle untouched; neither action slot (so in particular no action-finished
event) ever writes the cache; the cache is written only as a side effect of
the `state` query (shown here on an arbitrary Ready handle, where the query
stores the freshly computed current stage) and during initialization. -/
theorem C9_lazy_stage_cache (h : Handle) (a : String) (s : Bool) (p : Project) :
    ProjectListItem.currentStage h = (h, h.currentStageCache) ∧
    (runPrims h (ProjectListItem.actionStartedSlot a)).1.currentStageCache =
      h.currentStageCache ∧
    (runPrims h (ProjectListItem.actionFinishedSlot a s)).1.currentStageCache =
      h.currentStageCache ∧
    ProjectListItem.state { h with project := some p } =
      Except.ok
        ({ h with
            project := some p
            currentStageCache := ProjectListItem.currentStageName p.state },
         (ProjectStage.all.filter (fun st => st ≠ ProjectStage.UNDEFINED)).map
           (fun st => (st.name, p.state st))) := by
  cases s <;> exact ⟨rfl, rfl, rfl, rfl⟩

/-- C10: a freshly constructed handle reports `lastActionSucceed = true`
before any action has finished — the flag is initialized to `true` in
`__init__`, and neither the started slot nor the initializer (on either
construction outcome) changes it, so this query alone cannot distinguish
"no action ever ran" from "the last action succeeded". -/
theorem C10_fresh_last_action_true (a : String) (e : PyExn) (p : Project)
    (args : List String) :
    initialHandle.lastActionSucceed = true ∧
    ProjectListItem.lastActionSucceed initialHandle = true ∧
    (runPrims initialHandle
      (ProjectListItem.actionStartedSlot a)).1.lastActionSucceed = true ∧
    (runPrims initialHandle
      (init_project_prims (.error e) args)).1.lastActionSucceed = true ∧
    (runPrims initialHandle
      (init_project_prims (.ok p) args)).1.lastActionSucceed = true :=
  ⟨rfl, rfl, rfl, rfl, rfl⟩
